import Mathlib

/-!
Shallow embedding of the pathway-record parser of `src/app.py`
(function `get_kegg_genes`, lines 16-36).

The parser works on the fetched text only, so we model it as a function
from the text (a `List Char`) to the ordered list of emitted entries.
Python string primitives used by the source are embedded on `List Char`:
`str.strip`, `str.upper`, `str.split(sep)` for one- and two-character
separators, `str.split(None, 1)`, `str.replace('GENE', '')`,
`str.startswith`, and the `';' in line` membership test.  The
`parts[1]` indexing in the source can raise `IndexError`; the embedding
returns `Except Unit` where `.error ()` models that exception.
-/

/-- ASCII whitespace as recognized by Python `str.strip()` / `str.split(None)`. -/
def pyIsSpace (c : Char) : Bool :=
  c = ' ' || c = '\t' || c = '\n' || c = '\x0b' || c = '\x0c' || c = '\r'

/-- Python `s.strip()`: remove leading and trailing whitespace. -/
def pyStrip (s : List Char) : List Char :=
  ((s.dropWhile pyIsSpace).reverse.dropWhile pyIsSpace).reverse

/-- Python `s.upper()` (the source only ever feeds it ASCII). -/
def pyUpper (s : List Char) : List Char := s.map Char.toUpper

/-- Python `s.split(sep)` for a one-character separator: split at every
occurrence, keeping empty segments (`''.split(sep) == ['']`). -/
def pySplitChar (sep : Char) : List Char → List (List Char)
  | [] => [[]]
  | c :: cs =>
    if c = sep then [] :: pySplitChar sep cs
    else
      match pySplitChar sep cs with
      | [] => [[c]]
      | t :: ts => (c :: t) :: ts

/-- Python `line.split('; ')`: split at every non-overlapping occurrence of
the two-character separator `"; "`, scanning left to right. -/
def splitSemiSpace : List Char → List (List Char)
  | [] => [[]]
  | ';' :: ' ' :: cs => [] :: splitSemiSpace cs
  | c :: cs =>
    match splitSemiSpace cs with
    | [] => [[c]]
    | t :: ts => (c :: t) :: ts

/-- Python `line.replace('GENE', '')`: delete every non-overlapping
occurrence of `"GENE"`, scanning left to right. -/
def removeGENE : List Char → List Char
  | 'G' :: 'E' :: 'N' :: 'E' :: cs => removeGENE cs
  | c :: cs => c :: removeGENE cs
  | [] => []

/-- Python `head.split(None, 1)`: skip leading whitespace; if nothing is
left, the result is empty; otherwise take the first whitespace-free token,
skip the following whitespace run, and keep the (non-empty) remainder as a
second element. -/
def pySplitNone1 (s : List Char) : List (List Char) :=
  let s1 := s.dropWhile pyIsSpace
  if s1.isEmpty then []
  else
    let tok := s1.takeWhile (fun c => !pyIsSpace c)
    let rest := (s1.dropWhile (fun c => !pyIsSpace c)).dropWhile pyIsSpace
    if rest.isEmpty then [tok] else [tok, rest]

/-- The character list of a string literal. -/
def chars (s : String) : List Char := s.data

/-- One row appended to `genes` by `get_kegg_genes`. -/
structure GeneEntry where
  Symbol : List Char
  Description : List Char
deriving DecidableEq, Repr

/-- The section label `"GENE"`. -/
def geneTok : List Char := chars "GENE"

/-- The section label `"COMPOUND"`. -/
def compoundTok : List Char := chars "COMPOUND"

/-- The section label `"REFERENCE"`. -/
def referenceTok : List Char := chars "REFERENCE"

/-- The `if`/`elif` at the top of the loop body of `get_kegg_genes`
(src/app.py lines 25-29): a line starting with `GENE` opens the section and
is rewritten by `line.replace('GENE', '').strip()`; a line starting with
`COMPOUND` or `REFERENCE` closes the section and is left unchanged.
Returns the updated flag and the line used by the rest of the iteration. -/
def geneLineStep (is_gene_section : Bool) (line : List Char) :
    Bool × List Char :=
  if geneTok.isPrefixOf line then (true, pyStrip (removeGENE line))
  else if compoundTok.isPrefixOf line || referenceTok.isPrefixOf line then
    (false, line)
  else (is_gene_section, line)

/-- The emission step of `get_kegg_genes` (src/app.py lines 30-35) for the
possibly rewritten line under the current flag: `.ok none` emits nothing,
`.ok (some g)` appends `g`, and `.error ()` models the `IndexError` raised
by `parts[1]` when `line.split('; ')` produced a single segment. -/
def lineEmit (is_gene_section : Bool) (line : List Char) :
    Except Unit (Option GeneEntry) :=
  if is_gene_section && !line.isEmpty && line.contains ';' then
    let parts := splitSemiSpace line
    let id_sym := pySplitNone1 (parts.headD [])
    if 2 ≤ id_sym.length then
      match parts with
      | _ :: p1 :: _ =>
        .ok (some
          { Symbol :=
              pyUpper (pyStrip ((pySplitChar ',' (id_sym.getD 1 [])).headD []))
            Description := pyStrip p1 })
      | _ => .error ()
    else .ok none
  else .ok none

/-- The loop of `get_kegg_genes` over the list of lines, threading the
section flag and collecting appended entries in order; an `IndexError`
aborts the whole call. -/
def parseLines (is_gene_section : Bool) :
    List (List Char) → Except Unit (List GeneEntry)
  | [] => .ok []
  | l :: ls =>
    let st := geneLineStep is_gene_section l
    match lineEmit st.1 st.2 with
    | .error e => .error e
    | .ok none => parseLines st.1 ls
    | .ok (some g) =>
      match parseLines st.1 ls with
      | .error e => .error e
      | .ok gs => .ok (g :: gs)

/-- `get_kegg_genes` of src/app.py as a function of the fetched text:
`response.text.split('\n')` followed by the stateful loop with the flag
initially false.  `.ok gs` is the list of rows of the returned DataFrame,
`.error ()` the uncaught `IndexError`. -/
def get_kegg_genes (text : List Char) : Except Unit (List GeneEntry) :=
  parseLines false (pySplitChar '\n' text)

/-! ### Generic list facts used below -/

/-- Specification of `List.isPrefixOf` by an append decomposition. -/
theorem isPrefixOf_exists (p : List Char) :
    ∀ l : List Char, p.isPrefixOf l = true ↔ ∃ u, l = p ++ u := by
  induction p with
  | nil =>
    intro l
    simp [List.isPrefixOf]
  | cons c ps ih =>
    intro l
    cases l with
    | nil => simp [List.isPrefixOf]
    | cons d ls =>
      simp only [List.isPrefixOf, Bool.and_eq_true, beq_iff_eq]
      constructor
      · rintro ⟨rfl, h⟩
        obtain ⟨u, rfl⟩ := (ih ls).mp h
        exact ⟨u, rfl⟩
      · rintro ⟨u, hu⟩
        rw [List.cons_append] at hu
        injection hu with h1 h2
        exact ⟨h1.symm, (ih ls).mpr ⟨u, h2⟩⟩

/-- Whether `pat` occurs as a contiguous substring. -/
def containsSub (pat : List Char) : List Char → Bool
  | [] => pat.isPrefixOf []
  | c :: cs => pat.isPrefixOf (c :: cs) || containsSub pat cs

/-- Substring occurrence as an append decomposition. -/
theorem containsSub_exists (pat : List Char) (l : List Char) :
    containsSub pat l = true ↔ ∃ u v, l = u ++ (pat ++ v) := by
  induction l with
  | nil =>
    simp only [containsSub]
    rw [isPrefixOf_exists]
    constructor
    · rintro ⟨u, hu⟩
      exact ⟨[], u, by simpa using hu⟩
    · rintro ⟨u, v, huv⟩
      obtain ⟨hu0, h2⟩ := List.append_eq_nil.mp huv.symm
      exact ⟨v, h2.symm⟩
  | cons c cs ih =>
    simp only [containsSub, Bool.or_eq_true]
    constructor
    · rintro (h | h)
      · obtain ⟨u, hu⟩ := (isPrefixOf_exists pat _).mp h
        exact ⟨[], u, by simpa using hu⟩
      · obtain ⟨u, v, rfl⟩ := ih.mp h
        exact ⟨c :: u, v, rfl⟩
    · rintro ⟨u, v, huv⟩
      cases u with
      | nil =>
        left
        exact (isPrefixOf_exists pat _).mpr ⟨v, by simpa using huv⟩
      | cons d u' =>
        right
        rw [List.cons_append] at huv
        injection huv with h1 h2
        exact ih.mpr ⟨u', v, h2⟩

/-- A substring occurrence inside `x` is one inside `u ++ (x ++ w)`. -/
theorem containsSub_mono (pat u x w : List Char) (h : containsSub pat x = true) :
    containsSub pat (u ++ (x ++ w)) = true := by
  obtain ⟨a, b, rfl⟩ := (containsSub_exists pat x).mp h
  refine (containsSub_exists pat _).mpr ⟨u ++ a, b ++ w, ?_⟩
  simp [List.append_assoc]

/-- Substring absence passes to any middle part. -/
theorem containsSub_false_of_mid (pat u x w : List Char)
    (h : containsSub pat (u ++ (x ++ w)) = false) : containsSub pat x = false := by
  by_contra hx
  rw [Bool.not_eq_false] at hx
  rw [containsSub_mono pat u x w hx] at h
  exact Bool.noConfusion h

theorem length_dropWhile_le (p : Char → Bool) (l : List Char) :
    (l.dropWhile p).length ≤ l.length := by
  induction l with
  | nil => simp
  | cons c cs ih =>
    rw [List.dropWhile_cons]
    by_cases hc : p c = true
    · rw [if_pos hc]; exact Nat.le_trans ih (Nat.le_succ _)
    · rw [if_neg hc]

theorem dropWhile_self (p : Char → Bool) (l : List Char) :
    (l.dropWhile p).dropWhile p = l.dropWhile p := by
  induction l with
  | nil => simp
  | cons c cs ih =>
    by_cases hc : p c = true
    · rw [List.dropWhile_cons, if_pos hc]; exact ih
    · rw [List.dropWhile_cons, if_neg hc, List.dropWhile_cons, if_neg hc]

theorem head_false_of_dropWhile_eq_self (p : Char → Bool) (c : Char) (t : List Char)
    (h : (c :: t).dropWhile p = c :: t) : p c = false := by
  by_cases hc : p c = true
  · exfalso
    rw [List.dropWhile_cons, if_pos hc] at h
    have hlen := length_dropWhile_le p t
    rw [h] at hlen
    simp only [List.length_cons] at hlen
    omega
  · simpa using hc

theorem dropWhile_eq_self_of_append (p : Char → Bool) (x r l : List Char)
    (hl : l.dropWhile p = l) (hx : x ++ r = l) : x.dropWhile p = x := by
  cases x with
  | nil => simp
  | cons c t =>
    have hc : p c = false := by
      cases l with
      | nil => simp at hx
      | cons d u =>
        have hcd : c = d := by
          have h' := congrArg (fun z => z.head?) hx
          simpa using h'
        subst hcd
        exact head_false_of_dropWhile_eq_self p c u hl
    rw [List.dropWhile_cons, if_neg (by simp [hc])]

theorem headD_dropWhile_false (p : Char → Bool) (l : List Char)
    (h : l.dropWhile p ≠ []) : p ((l.dropWhile p).headD ' ') = false := by
  induction l with
  | nil => simp at h
  | cons c cs ih =>
    by_cases hc : p c = true
    · rw [List.dropWhile_cons, if_pos hc]
      exact ih (by rwa [List.dropWhile_cons, if_pos hc] at h)
    · rw [List.dropWhile_cons, if_neg hc]
      simpa using hc

/-! ### Facts about the embedded Python primitives -/

theorem pyStrip_append_eq (s : List Char) :
    pyStrip s ++ ((s.dropWhile pyIsSpace).reverse.takeWhile pyIsSpace).reverse
      = s.dropWhile pyIsSpace := by
  unfold pyStrip
  rw [← List.reverse_append, List.takeWhile_append_dropWhile, List.reverse_reverse]

/-- The stripped string has no leading whitespace. -/
theorem pyStrip_no_leading (s : List Char) :
    (pyStrip s).dropWhile pyIsSpace = pyStrip s :=
  dropWhile_eq_self_of_append pyIsSpace (pyStrip s) _ _
    (dropWhile_self pyIsSpace s) (pyStrip_append_eq s)

/-- Stripping is idempotent: the result has no surrounding whitespace. -/
theorem pyStrip_idem (s : List Char) : pyStrip (pyStrip s) = pyStrip s := by
  have h1 := pyStrip_no_leading s
  have h2 : (pyStrip s).reverse
      = ((s.dropWhile pyIsSpace).reverse).dropWhile pyIsSpace := by
    unfold pyStrip; rw [List.reverse_reverse]
  calc pyStrip (pyStrip s)
      = (((pyStrip s).dropWhile pyIsSpace).reverse.dropWhile pyIsSpace).reverse := rfl
    _ = ((pyStrip s).reverse.dropWhile pyIsSpace).reverse := by rw [h1]
    _ = pyStrip s := by rw [h2, dropWhile_self]; rfl

/-- The stripped string is a middle part of the original. -/
theorem pyStrip_mid (s : List Char) :
    ∃ u w, s = u ++ (pyStrip s ++ w) := by
  refine ⟨s.takeWhile pyIsSpace,
    ((s.dropWhile pyIsSpace).reverse.takeWhile pyIsSpace).reverse, ?_⟩
  conv_lhs => rw [← List.takeWhile_append_dropWhile pyIsSpace s,
    ← pyStrip_append_eq s]

/-- Stripping cannot create a substring occurrence. -/
theorem containsSub_pyStrip_false (pat s : List Char)
    (h : containsSub pat s = false) : containsSub pat (pyStrip s) = false := by
  obtain ⟨u, w, hs⟩ := pyStrip_mid s
  exact containsSub_false_of_mid pat u _ w (hs ▸ h)

/-- Stripping a string whose first character is not whitespace is non-empty. -/
theorem pyStrip_cons_ne_nil (c : Char) (t : List Char) (hc : pyIsSpace c = false) :
    pyStrip (c :: t) ≠ [] := by
  intro h
  unfold pyStrip at h
  rw [List.dropWhile_cons, if_neg (by simp [hc])] at h
  rw [List.reverse_eq_nil_iff, List.dropWhile_eq_nil_iff] at h
  have hcc := h c (by simp)
  rw [hc] at hcc
  exact Bool.noConfusion hcc

/-- Reduction of `splitSemiSpace` on a cons that does not start the separator. -/
theorem splitSemiSpace_cons_eq (c : Char) (cs : List Char)
    (h : ∀ cs', c = ';' → cs = ' ' :: cs' → False) (t : List Char)
    (ts : List (List Char)) (heq : splitSemiSpace cs = t :: ts) :
    splitSemiSpace (c :: cs) = (c :: t) :: ts := by
  conv_lhs => rw [splitSemiSpace.eq_def]
  split
  · rename_i hh; exact absurd hh (by simp)
  · rename_i cs' hh
    injection hh with h1 h2
    exact (h cs' h1 h2).elim
  · rename_i c' cs' hguard hh
    injection hh with h1 h2
    subst h1; subst h2
    rw [heq]

theorem splitSemiSpace_ne_nil (s : List Char) : splitSemiSpace s ≠ [] := by
  induction s using splitSemiSpace.induct with
  | case1 => simp [splitSemiSpace]
  | case2 cs ih => simp [splitSemiSpace]
  | case3 c cs h hnil ih => exact absurd hnil ih
  | case4 c cs h t ts heq ih =>
    simp [splitSemiSpace_cons_eq c cs h t ts heq]

/-- The first segment of the split is an initial part of the string. -/
theorem splitSemiSpace_head_append (s : List Char) :
    ∃ r, (splitSemiSpace s).headD [] ++ r = s := by
  induction s using splitSemiSpace.induct with
  | case1 => exact ⟨[], rfl⟩
  | case2 cs ih => exact ⟨';' :: ' ' :: cs, rfl⟩
  | case3 c cs h hnil ih => exact absurd hnil (splitSemiSpace_ne_nil cs)
  | case4 c cs h t ts heq ih =>
    obtain ⟨r, hr⟩ := ih
    rw [heq] at hr
    simp only [List.headD_cons] at hr
    refine ⟨r, ?_⟩
    rw [splitSemiSpace_cons_eq c cs h t ts heq]
    simp only [List.headD_cons, List.cons_append, hr]

/-- No segment produced by `splitSemiSpace` contains the separator. -/
theorem splitSemiSpace_not_contains (s : List Char) :
    ∀ x ∈ splitSemiSpace s, containsSub (chars "; ") x = false := by
  induction s using splitSemiSpace.induct with
  | case1 =>
    intro x hx
    have e : splitSemiSpace ([] : List Char) = [[]] := rfl
    rw [e] at hx
    rcases List.mem_cons.mp hx with h | h
    · subst h; rfl
    · simp at h
  | case2 cs ih =>
    intro x hx
    have e : splitSemiSpace (';' :: ' ' :: cs) = [] :: splitSemiSpace cs := rfl
    rw [e] at hx
    rcases List.mem_cons.mp hx with h | h
    · subst h; rfl
    · exact ih x h
  | case3 c cs h hnil ih => exact absurd hnil (splitSemiSpace_ne_nil cs)
  | case4 c cs h t ts heq ih =>
    intro x hx
    rw [splitSemiSpace_cons_eq c cs h t ts heq] at hx
    rcases List.mem_cons.mp hx with hx1 | hx1
    · subst hx1
      have ht : containsSub (chars "; ") t = false :=
        ih t (by rw [heq]; exact List.mem_cons_self _ _)
      have hsep : (chars "; ").isPrefixOf (c :: t) = false := by
        by_contra hp
        rw [Bool.not_eq_false] at hp
        obtain ⟨u, hu⟩ := (isPrefixOf_exists _ _).mp hp
        have hu' : c :: t = ';' :: ' ' :: u := hu
        injection hu' with hc1 hu2
        obtain ⟨r, hr⟩ := splitSemiSpace_head_append cs
        rw [heq] at hr
        simp only [List.headD_cons] at hr
        refine h (u ++ r) hc1 ?_
        rw [← hr, hu2]
        rfl
      simp only [containsSub, Bool.or_eq_false_iff]
      exact ⟨hsep, ht⟩
    · exact ih x (by rw [heq]; exact List.mem_cons_of_mem _ hx1)

/-- When the whitespace split has a second element, that element starts with a
non-whitespace character. -/
theorem pySplitNone1_second (s : List Char) (h : 2 ≤ (pySplitNone1 s).length) :
    ∃ c r', (pySplitNone1 s).getD 1 [] = c :: r' ∧ pyIsSpace c = false := by
  simp only [pySplitNone1] at h ⊢
  by_cases h1 : (s.dropWhile pyIsSpace).isEmpty = true
  · rw [if_pos h1] at h
    simp at h
  · rw [if_neg h1] at h ⊢
    by_cases h2 : (((s.dropWhile pyIsSpace).dropWhile fun c => !pyIsSpace c).dropWhile
        pyIsSpace).isEmpty = true
    · rw [if_pos h2] at h
      simp at h
    · rw [if_neg h2] at h ⊢
      have hne : ((s.dropWhile pyIsSpace).dropWhile fun c => !pyIsSpace c).dropWhile
          pyIsSpace ≠ [] := by
        intro hnil
        rw [hnil] at h2
        exact h2 rfl
      obtain ⟨c, r', hc⟩ := List.exists_cons_of_ne_nil hne
      refine ⟨c, r', ?_, ?_⟩
      · simp [hc]
      · have hh := headD_dropWhile_false pyIsSpace
          ((s.dropWhile pyIsSpace).dropWhile fun c => !pyIsSpace c) hne
        rw [hc] at hh
        simpa using hh

theorem pySplitChar_ne_nil (sep : Char) (s : List Char) : pySplitChar sep s ≠ [] := by
  induction s with
  | nil => simp [pySplitChar]
  | cons c cs ih =>
    simp only [pySplitChar]
    by_cases hc : c = sep
    · rw [if_pos hc]; simp
    · rw [if_neg hc]
      cases hsp : pySplitChar sep cs with
      | nil => exact absurd hsp ih
      | cons t ts => simp [hsp]

/-- Splitting a string whose first character is not the separator keeps that
character at the head of the first segment. -/
theorem pySplitChar_cons_of_ne (sep c : Char) (cs : List Char) (h : ¬ c = sep) :
    ∃ t ts, pySplitChar sep (c :: cs) = (c :: t) :: ts := by
  simp only [pySplitChar, if_neg h]
  cases hsp : pySplitChar sep cs with
  | nil => exact absurd hsp (pySplitChar_ne_nil sep cs)
  | cons t ts => exact ⟨t, ts, rfl⟩

/-! ### Characterization of the emission step -/

/-- Successful emission forces the `"; "` split to have at least two segments
and the head segment at least two whitespace tokens, and the emitted entry is
built exactly as on line 35 of the source. -/
theorem lineEmit_ok_shape (b : Bool) (line : List Char) (g : GeneEntry)
    (h : lineEmit b line = .ok (some g)) :
    ∃ p0 p1 rest, splitSemiSpace line = p0 :: p1 :: rest ∧
      2 ≤ (pySplitNone1 p0).length ∧
      g = { Symbol := pyUpper (pyStrip ((pySplitChar ','
              ((pySplitNone1 p0).getD 1 [])).headD []))
            Description := pyStrip p1 } := by
  simp only [lineEmit] at h
  by_cases h1 : (b && !line.isEmpty && line.contains ';') = true
  · rw [if_pos h1] at h
    by_cases h2 : 2 ≤ (pySplitNone1 ((splitSemiSpace line).headD [])).length
    · rw [if_pos h2] at h
      cases hp : splitSemiSpace line with
      | nil =>
        rw [hp] at h
        exact Except.noConfusion h
      | cons p0 rest0 =>
        cases rest0 with
        | nil =>
          simp only [hp] at h
          exact Except.noConfusion h
        | cons p1 rest =>
          simp only [hp, List.headD_cons] at h
          simp only [Except.ok.injEq, Option.some.injEq] at h
          refine ⟨p0, p1, rest, rfl, ?_, h.symm⟩
          rw [hp] at h2
          simpa using h2
    · rw [if_neg h2] at h
      injection h with h'
      exact Option.noConfusion h'
  · rw [if_neg h1] at h
    injection h with h'
    exact Option.noConfusion h'

/-! ### Claims -/

/-- C1, counterexample: in the text "GENE x\nab;cd ef; x" the first line has
no semicolon and the second line's pre-semicolon portion "ab" has a single
whitespace token, so the claimed invariant predicts no entry at all; yet the
parser emits one, because the head segment is cut at the first "; " (not at
the first ";"). -/
theorem C1_counterexample :
    (chars "GENE x").contains ';' = false ∧
    (pySplitNone1 ((chars "ab;cd ef; x").takeWhile (fun c => c != ';'))).length = 1 ∧
    get_kegg_genes (chars "GENE x\nab;cd ef; x") =
      .ok [{ Symbol := chars "EF", Description := chars "x" }] :=
  ⟨rfl, rfl, rfl⟩

/-- C1, amended: the emission step produces an entry iff the section flag is
true, the line is non-empty, contains a semicolon, its "; "-split has at
least two segments (the line contains the two-character separator "; "), and
the head segment before the first "; " has at least two whitespace-delimited
tokens. -/
theorem C1_theorem (b : Bool) (line : List Char) :
    (∃ g, lineEmit b line = .ok (some g)) ↔
      (b = true ∧ line ≠ [] ∧ line.contains ';' = true ∧
       2 ≤ (splitSemiSpace line).length ∧
       2 ≤ (pySplitNone1 ((splitSemiSpace line).headD [])).length) := by
  constructor
  · rintro ⟨g, h⟩
    simp only [lineEmit] at h
    by_cases h1 : (b && !line.isEmpty && line.contains ';') = true
    · rw [if_pos h1] at h
      by_cases h2 : 2 ≤ (pySplitNone1 ((splitSemiSpace line).headD [])).length
      · rw [if_pos h2] at h
        have h1' := h1
        simp only [Bool.and_eq_true, Bool.not_eq_true'] at h1'
        refine ⟨h1'.1.1, List.isEmpty_eq_false.mp h1'.1.2, h1'.2, ?_, h2⟩
        cases hp : splitSemiSpace line with
        | nil =>
          rw [hp] at h
          exact Except.noConfusion h
        | cons p0 rest0 =>
          cases rest0 with
          | nil =>
            simp only [hp] at h
            exact Except.noConfusion h
          | cons p1 rest =>
            simp only [List.length_cons]
            omega
      · rw [if_neg h2] at h
        injection h with h'
        exact Option.noConfusion h'
    · rw [if_neg h1] at h
      injection h with h'
      exact Option.noConfusion h'
  · rintro ⟨hb, hne, hcont, hlen, hid⟩
    have h1 : (b && !line.isEmpty && line.contains ';') = true := by
      rw [hb, List.isEmpty_eq_false.mpr hne, hcont]
      rfl
    simp only [lineEmit]
    rw [if_pos h1, if_pos hid]
    cases hp : splitSemiSpace line with
    | nil => rw [hp] at hlen; simp at hlen
    | cons p0 rest0 =>
      cases rest0 with
      | nil => rw [hp] at hlen; simp at hlen
      | cons p1 rest =>
        simp only [hp]
        exact ⟨_, rfl⟩

/-- Witness for C1: the line "1 S; d" under an open section emits an entry. -/
theorem C1_witness : ∃ g, lineEmit true (chars "1 S; d") = .ok (some g) :=
  (C1_theorem true (chars "1 S; d")).mpr (by decide)

/-- C2: on the text "GENE ab cd;x" — a gene-section line containing a
semicolon not followed by a space, whose head has two whitespace tokens — the
source raises IndexError at parts[1] (parts has a single element because the
split separator is "; " while the guard only checked ';'), instead of
skipping the malformed line. -/
theorem C2_theorem :
    get_kegg_genes (chars "GENE ab cd;x") = .error () := rfl

/-- C3, counterexample: the line "GENE 1 S; d1; d2" contains a second "; "
separator; the emitted Description is "d1", not the entire remainder
"d1; d2" after the first separator. -/
theorem C3_counterexample :
    get_kegg_genes (chars "GENE 1 S; d1; d2") =
      .ok [{ Symbol := chars "S", Description := chars "d1" }] := rfl

/-- C3, amended: the line is split at every occurrence of "; "; the
Description of an emitted entry is the trimmed second segment of that split,
i.e. the part strictly between the first and the second "; " occurrences when
a second one exists (only bare semicolons not followed by a space remain in
the Description). -/
theorem C3_theorem (b : Bool) (line : List Char) (g : GeneEntry)
    (h : lineEmit b line = .ok (some g)) :
    g.Description = pyStrip ((splitSemiSpace line).getD 1 []) := by
  obtain ⟨p0, p1, rest, hp, hlen, hg⟩ := lineEmit_ok_shape b line g h
  rw [hg, hp]
  rfl

/-- Witness for C3 at the line "1 S; d1; d2" and its emitted entry. -/
theorem C3_witness :
    ({ Symbol := chars "S", Description := chars "d1" } : GeneEntry).Description
      = pyStrip ((splitSemiSpace (chars "1 S; d1; d2")).getD 1 []) :=
  C3_theorem true (chars "1 S; d1; d2")
    { Symbol := chars "S", Description := chars "d1" } rfl

/-- C4, counterexample: for the gene-section line "GENE 1 sym1, SYM2; d" the
emitted Symbol is "SYM1", not the unchanged first alias "sym1": the parser
applies an upper-case transformation. -/
theorem C4_counterexample :
    get_kegg_genes (chars "GENE 1 sym1, SYM2; d") =
      .ok [{ Symbol := chars "SYM1", Description := chars "d" }] := rfl

/-- C4, amended: the Symbol of an emitted entry is the first comma-separated
alias of the symbol token (the second whitespace-delimited token of the head
segment), trimmed of surrounding whitespace and converted to upper case by
the parser. -/
theorem C4_theorem (b : Bool) (line : List Char) (g : GeneEntry)
    (h : lineEmit b line = .ok (some g)) :
    g.Symbol = pyUpper (pyStrip ((pySplitChar ','
      ((pySplitNone1 ((splitSemiSpace line).headD [])).getD 1 [])).headD [])) := by
  obtain ⟨p0, p1, rest, hp, hlen, hg⟩ := lineEmit_ok_shape b line g h
  rw [hg, hp]
  rfl

/-- Witness for C4 at the head of the spec's example line
"GENE  1234  SYM1, SYM2; Some description" after GENE-rewriting. -/
theorem C4_witness :
    ({ Symbol := chars "SYM1", Description := chars "Some description" } :
        GeneEntry).Symbol
      = pyUpper (pyStrip ((pySplitChar ','
        ((pySplitNone1 ((splitSemiSpace
          (chars "1234  SYM1, SYM2; Some description")).headD [])).getD 1 [])).headD [])) :=
  C4_theorem true (chars "1234  SYM1, SYM2; Some description")
    { Symbol := chars "SYM1", Description := chars "Some description" } rfl

/-- C5, counterexample: in the line "GENE 1 GENE2; d" the interior occurrence
of "GENE" is not left intact: the replace step removes it too, so the symbol
token becomes "2" rather than "GENE2". -/
theorem C5_counterexample :
    get_kegg_genes (chars "GENE 1 GENE2; d") =
      .ok [{ Symbol := chars "2", Description := chars "d" }] := rfl

/-- C5, amended: a line starting with "GENE" sets the flag to true and is
rewritten by deleting every left-to-right non-overlapping occurrence of
"GENE" in the whole line (not only the leading token) and stripping the
result; deleting a leading "GENE" occurrence is one step of that rewriting. -/
theorem C5_theorem (b : Bool) (line t : List Char)
    (h : geneTok.isPrefixOf line = true) :
    geneLineStep b line = (true, pyStrip (removeGENE line)) ∧
      removeGENE (geneTok ++ t) = removeGENE t := by
  refine ⟨?_, rfl⟩
  unfold geneLineStep
  rw [if_pos h]

/-- Witness for C5 at the line "GENE 1 GENE2; d". -/
theorem C5_witness :
    geneLineStep false (chars "GENE 1 GENE2; d")
        = (true, pyStrip (removeGENE (chars "GENE 1 GENE2; d"))) ∧
      removeGENE (geneTok ++ chars " 1 GENE2; d")
        = removeGENE (chars " 1 GENE2; d") :=
  C5_theorem false (chars "GENE 1 GENE2; d") (chars " 1 GENE2; d") rfl

/-- C6: the four-line example of spec section 8 yields exactly the three
entries (ABC1, "alpha subunit"), (DEF1, "beta subunit"),
(GHI1, "ignored, should not appear"), in this order. -/
theorem C6_theorem :
    get_kegg_genes (chars "GENE        1234  ABC1, ABC2; alpha subunit\n5678  DEF1; beta subunit\nCOMPOUND    C00031  D-glucose\nGENE        9999  GHI1; ignored, should not appear") =
      .ok [{ Symbol := chars "ABC1", Description := chars "alpha subunit" },
           { Symbol := chars "DEF1", Description := chars "beta subunit" },
           { Symbol := chars "GHI1",
             Description := chars "ignored, should not appear" }] := rfl

/-- C7, counterexample: the gene-section line "GENE 1 ,X; d" emits an entry
whose Symbol is the empty string, because the symbol token ",X" starts with a
comma and its first comma-separated alias is empty. -/
theorem C7_counterexample :
    get_kegg_genes (chars "GENE 1 ,X; d") =
      .ok [{ Symbol := [], Description := chars "d" }] := rfl

/-- C7, amended: an emitted entry has a non-empty Symbol whenever the symbol
token of its line does not start with a comma. -/
theorem C7_theorem (b : Bool) (line : List Char) (g : GeneEntry)
    (h : lineEmit b line = .ok (some g))
    (h2 : ((pySplitNone1 ((splitSemiSpace line).headD [])).getD 1 []).headD ' '
      ≠ ',') :
    g.Symbol ≠ [] := by
  obtain ⟨p0, p1, rest, hp, hlen, hg⟩ := lineEmit_ok_shape b line g h
  rw [hp] at h2
  simp only [List.headD_cons] at h2
  obtain ⟨c, r', hcr, hcsp⟩ := pySplitNone1_second p0 hlen
  rw [hcr] at h2
  simp only [List.headD_cons] at h2
  obtain ⟨t, ts, hsplit⟩ := pySplitChar_cons_of_ne ',' c r' h2
  rw [hg]
  show pyUpper (pyStrip ((pySplitChar ','
    ((pySplitNone1 p0).getD 1 [])).headD [])) ≠ []
  rw [hcr, hsplit]
  simp only [List.headD_cons]
  intro hnil
  exact pyStrip_cons_ne_nil c t hcsp (by simpa [pyUpper] using hnil)

/-- Witness for C7 at the line "1 S; d" and its emitted entry. -/
theorem C7_witness :
    ({ Symbol := chars "S", Description := chars "d" } : GeneEntry).Symbol ≠ [] :=
  C7_theorem true (chars "1 S; d")
    { Symbol := chars "S", Description := chars "d" } rfl (by decide)

/-- Helper for C8: with the flag down and no GENE-prefixed line, the loop
keeps the flag down and emits nothing. -/
theorem parseLines_no_gene (ls : List (List Char))
    (h : ∀ l ∈ ls, geneTok.isPrefixOf l = false) :
    parseLines false ls = .ok [] := by
  induction ls with
  | nil => rfl
  | cons l ls ih =>
    have hl : geneTok.isPrefixOf l = false := h l (List.mem_cons_self _ _)
    have hstep : (geneLineStep false l).1 = false := by
      unfold geneLineStep
      rw [if_neg (by simp [hl])]
      by_cases hc : (compoundTok.isPrefixOf l || referenceTok.isPrefixOf l) = true
      · rw [if_pos hc]
      · rw [if_neg hc]
    have hemit : lineEmit (geneLineStep false l).1 (geneLineStep false l).2
        = .ok none := by
      rw [hstep]
      simp only [lineEmit]
      rw [if_neg (by simp)]
    simp only [parseLines]
    rw [hemit, hstep]
    exact ih (fun x hx => h x (List.mem_cons_of_mem _ hx))

/-- C8: an input none of whose lines starts with "GENE" parses to the empty
list of entries, returned as a normal (non-error) outcome. -/
theorem C8_theorem (text : List Char)
    (h : ∀ l ∈ pySplitChar '\n' text, geneTok.isPrefixOf l = false) :
    get_kegg_genes text = .ok [] := by
  unfold get_kegg_genes
  exact parseLines_no_gene _ h

/-- Witness for C8: the empty input yields the empty list. -/
theorem C8_witness : get_kegg_genes (chars "") = .ok [] :=
  C8_theorem (chars "") (by decide)

/-- C9: parsing is a pure function of the input text — two invocations on
the same text give identical (hence order-preserving) results, with no state
carried across invocations. -/
theorem C9_theorem (t1 t2 : List Char) (h : t1 = t2) :
    get_kegg_genes t1 = get_kegg_genes t2 := by rw [h]

/-- Witness for C9 at a concrete text. -/
theorem C9_witness :
    get_kegg_genes (chars "GENE 1 S; d") = get_kegg_genes (chars "GENE 1 S; d") :=
  C9_theorem (chars "GENE 1 S; d") (chars "GENE 1 S; d") rfl

/-- C10: the Description of every emitted entry contains no "; " occurrence,
is unchanged by stripping (no surrounding whitespace), and equals the trimmed
segment strictly between the first and second "; " separators of its line. -/
theorem C10_theorem (b : Bool) (line : List Char) (g : GeneEntry)
    (h : lineEmit b line = .ok (some g)) :
    containsSub (chars "; ") g.Description = false ∧
      pyStrip g.Description = g.Description ∧
      g.Description = pyStrip ((splitSemiSpace line).getD 1 []) := by
  obtain ⟨p0, p1, rest, hp, hlen, hg⟩ := lineEmit_ok_shape b line g h
  have hmem : p1 ∈ splitSemiSpace line := by
    rw [hp]
    exact List.mem_cons_of_mem _ (List.mem_cons_self _ _)
  have hns := splitSemiSpace_not_contains line p1 hmem
  refine ⟨?_, ?_, ?_⟩
  · rw [hg]
    exact containsSub_pyStrip_false _ _ hns
  · rw [hg]
    exact pyStrip_idem p1
  · rw [hg, hp]
    rfl

/-- Witness for C10 at the line "7 K; v1; v2" and its emitted entry. -/
theorem C10_witness :
    containsSub (chars "; ")
        ({ Symbol := chars "K", Description := chars "v1" } : GeneEntry).Description
        = false ∧
      pyStrip ({ Symbol := chars "K", Description := chars "v1" } :
          GeneEntry).Description
        = ({ Symbol := chars "K", Description := chars "v1" } :
          GeneEntry).Description ∧
      ({ Symbol := chars "K", Description := chars "v1" } :
          GeneEntry).Description
        = pyStrip ((splitSemiSpace (chars "7 K; v1; v2")).getD 1 []) :=
  C10_theorem true (chars "7 K; v1; v2")
    { Symbol := chars "K", Description := chars "v1" } rfl
